import Mathlib

/-!
Shallow embedding of `bin/generate-readme.js`: a script that discovers
repositories via a paginated search API, collects a JSON metadata file from
each, and renders a README table plus a JSON listing.

Strings are modelled as `List Char` (`Str`), so that the character-level
regex replacements of the script can be expressed by structural recursion.
Network effects (the GitHub client, the HTTP HEAD probe) are modelled as
explicit function parameters; JSON parsing is an abstract parameter.
-/

abbrev Str := List Char

/-- Metadata record parsed from a repository's `.repo-metadata.json`.
Optional string fields are `Option Str`; JavaScript truthiness for a string
field (absent, `null` or `""` are falsy) is captured by `truthyStr`. -/
structure Metadata where
  api_id : Option Str
  name_pretty : Str
  product_documentation : Option Str
  client_documentation : Str
  distribution_name : Str
  requires_billing : Bool
  repo : Str
  support_documentation : Option Str := none
deriving Repr, DecidableEq

/-- JavaScript truthiness of an optional string field: `undefined`, `null`
and the empty string are falsy, every other string is truthy. -/
def truthyStr : Option Str → Bool
  | none => false
  | some s => !s.isEmpty

/-- Embeds `metadata.name_pretty.replace(/^(Google )?Cloud /, '')`
(line 76): removes one leading occurrence of `"Google Cloud "` or
`"Cloud "` (the regex greedily prefers the longer alternative, which agrees
with testing the longer literal first), leaving the rest unchanged. -/
def normalizeName (s : Str) : Str :=
  if ("Google Cloud ".data).isPrefixOf s then s.drop 13
  else if ("Cloud ".data).isPrefixOf s then s.drop 6
  else s

/-- Removes every trailing `'/'` character. -/
def dropTrailingSlashes (s : Str) : Str :=
  (s.reverse.dropWhile (fun c => c == '/')).reverse

/-- Embeds `.replace(/\/*$/, '/')` (line 87): the first (hence leftmost,
maximal) match of zero or more slashes anchored at the end of the string is
the full run of trailing slashes, so the replacement strips that run and
appends a single `'/'`. -/
def ensureTrailingSlash (s : Str) : Str :=
  dropTrailingSlashes s ++ ['/']

/-- Embeds `.replace(/(docs\/(.+)*)*$/, 'docs/getting-support')` (line 90).
The pattern matches, at the leftmost possible position, a run of
`docs/`-headed segments extending to the end of the string; since `(.+)*`
absorbs any newline-free remainder, the match starts at the first
occurrence of `"docs/"` whose suffix contains no newline (JavaScript `.`
does not match `'\n'`), and everything from there to the end is replaced.
When no such occurrence exists the pattern matches the empty string at the
end and the replacement is appended. -/
def replaceFromDocs : Str → Str
  | [] => "docs/getting-support".data
  | c :: rest =>
    if ("docs/".data).isPrefixOf (c :: rest) && !(c :: rest).contains '\n' then
      "docs/getting-support".data
    else
      c :: replaceFromDocs rest

/-- Candidate "getting support" URL derived from the product-documentation
URL (lines 85-90): guarantee a trailing slash, then rewrite the `docs/...`
suffix. -/
def deriveSupportUrl (pd : Str) : Str :=
  replaceFromDocs (ensureTrailingSlash pd)

/-- Fixed override URL used for Stackdriver products (line 94). -/
def stackdriverSupportUrl : Str :=
  "https://cloud.google.com/stackdriver/docs/getting-support".data

/-- Character class removed by JavaScript `String.prototype.trim`:
WhiteSpace and LineTerminator code points. -/
def isJsWhitespace (c : Char) : Bool :=
  c == ' ' || c == '\t' || c == '\n' || c == '\r' || c == '\x0b' ||
  c == '\x0c' || c == '\u00a0' || c == '\ufeff' || c == '\u1680' ||
  ('\u2000' ≤ c && c ≤ '\u200a') || c == '\u2028' || c == '\u2029' ||
  c == '\u202f' || c == '\u205f' || c == '\u3000'

/-- JavaScript `String.prototype.trim`: drop leading and trailing
whitespace. -/
def jsTrim (s : Str) : Str :=
  ((s.dropWhile isJsWhitespace).reverse.dropWhile isJsWhitespace).reverse

/-- Embeds the test on line 93:
`metadata.name_pretty.toLowerCase().trim().startsWith('stackdriver')`.
`Char.toLower` models `toLowerCase` on the ASCII range, which covers every
character of the literal being matched. -/
def startsWithStackdriver (name : Str) : Bool :=
  ("stackdriver".data).isPrefixOf (jsTrim (name.map Char.toLower))

/-- The per-record body of the `generateReadme` loop (lines 67-111).
`probe` gives the status code returned by the HTTP HEAD request on a URL;
`validateStatus: () => true` (line 101) makes that request total (it never
throws on any status), which is why `probe` is a plain function.
Returns `none` when the record is skipped (falsy `api_id`), otherwise the
record as pushed onto `libraries`. -/
def processRecord (probe : Str → Nat) (m : Metadata) : Option Metadata :=
  if !(truthyStr m.api_id) then none
  else
    let m1 := { m with name_pretty := normalizeName m.name_pretty }
    match m1.product_documentation with
    | none => some m1
    | some pd =>
      if pd.isEmpty then some m1
      else
        let derived := deriveSupportUrl pd
        let candidate :=
          if startsWithStackdriver m1.name_pretty then stackdriverSupportUrl
          else derived
        let finalUrl := if probe candidate == 404 then pd else candidate
        some { m1 with support_documentation := some finalUrl }

/-- The filtering pass of `generateReadme` over the metadata mapping, in
insertion (iteration) order. -/
def generateLibraries (probe : Str → Nat) (repoMetadata : List Metadata) :
    List Metadata :=
  repoMetadata.filterMap (processRecord probe)

/-- Embeds `libraries.sort((a, b) => a.name_pretty.localeCompare(b.name_pretty))`
(lines 113-115). `cmp` abstracts `localeCompare` (negative, zero or
positive); a sort against a consistent comparator yields a sequence sorted
by it, which we model with `mergeSort`. -/
def sortLibraries (cmp : Str → Str → Int) (libs : List Metadata) :
    List Metadata :=
  libs.mergeSort (fun a b => decide (cmp a.name_pretty b.name_pretty ≤ 0))

/-- Glyph printed for `figures.cross`. -/
def crossGlyph : Str := "✖".data

/-- Glyph printed for `figures.tick`. -/
def tickGlyph : Str := "✔".data

/-- One rendered README table row (line 120). -/
def renderRow (lib : Metadata) : Str :=
  "| [".data ++ lib.name_pretty ++ "](https://github.com/".data ++ lib.repo ++
  ") | [:notebook:](".data ++ lib.client_documentation ++ ") | `npm i ".data ++
  lib.distribution_name ++ "` | [enable](https://console.cloud.google.com/flows/enableapi?apiid=".data ++
  (lib.api_id.getD []) ++ ") | ".data ++
  (if lib.requires_billing then crossGlyph else tickGlyph) ++ " |\n".data

/-- The rendered README rows, one per library, in order (lines 118-121). -/
def renderRows (libs : List Metadata) : List Str :=
  libs.map renderRow

/-- Result of one `github.request` for a repository's metadata file, after
base64 decoding (line 43-46). `ok` carries the decoded file content;
`httpErr` a thrown HTTP error carrying `err.response.status`; `netErr` a
thrown error without a response object. -/
inductive FetchResult where
  | ok (content : Str)
  | httpErr (status : Nat)
  | netErr
deriving Repr, DecidableEq

/-- Fatal error aborting `collectRepoMetadata`. -/
inductive RunError where
  | httpFatal (repo : String) (status : Nat)
  | parseFatal (repo : String)
  | netFatal (repo : String)
deriving Repr, DecidableEq

/-- Updates the value at a key of an association list, or appends the pair:
the JavaScript object `repoMetadata[repo] = ...` keeps the first-insertion
position of an existing key and overwrites its value. -/
def insertOrUpdate (acc : List (String × Metadata)) (k : String)
    (v : Metadata) : List (String × Metadata) :=
  match acc with
  | [] => [(k, v)]
  | (k0, v0) :: rest =>
    if k0 = k then (k0, v) :: rest
    else (k0, v0) :: insertOrUpdate rest k v

/-- Loop of `collectRepoMetadata` (lines 38-56) with the accumulated
mapping threaded through. A 404 HTTP error is logged and skipped
(`!err.response || err.response.status !== 404` fails, so the error is not
rethrown); every other HTTP error, any error without a response, and a
JSON-parse failure (`parse` returning `none` models a `JSON.parse` throw,
which carries no response) is rethrown, aborting the run. -/
def collectRepoMetadataAux (fetch : String → FetchResult)
    (parse : Str → Option Metadata) :
    List String → List (String × Metadata) →
    Except RunError (List (String × Metadata))
  | [], acc => .ok acc
  | repo :: rest, acc =>
    match fetch repo with
    | .ok content =>
      match parse content with
      | some m => collectRepoMetadataAux fetch parse rest (insertOrUpdate acc repo m)
      | none => .error (.parseFatal repo)
    | .httpErr status =>
      if status == 404 then collectRepoMetadataAux fetch parse rest acc
      else .error (.httpFatal repo status)
    | .netErr => .error (.netFatal repo)

/-- Entry point of metadata collection: starts from the empty mapping. -/
def collectRepoMetadata (fetch : String → FetchResult)
    (parse : Str → Option Metadata) (repos : List String) :
    Except RunError (List (String × Metadata)) :=
  collectRepoMetadataAux fetch parse repos []

/-- One page of the repository-search endpoint: the `full_name` of each
item, and the URL of the `next` link relation of the `link` header when
present (`parseLinkHeader(res.headers['link']).next`). -/
structure Page where
  items : List String
  next : Option String
deriving Repr, DecidableEq

/-- Initial search URL built on lines 128-130 (query string serialized by
`URLSearchParams`). -/
def initialSearchUrl : String :=
  "https://api.github.com/search/repositories?q=nodejs+in%3A.repo-metadata.json+org%3Agoogleapis+is%3Apublic+archived%3Afalse&per_page=100"

/-- Loop of `getRepos` (lines 126-144): request the current URL, append the
page's items, and continue with the `next` link while one is present.
`fuel` bounds the number of requests so the loop is total in Lean; `none`
means the chain of `next` links did not end within `fuel` requests. -/
def getReposAux (server : String → Page) :
    Nat → String → List String → Option (List String)
  | 0, _, _ => none
  | fuel + 1, url, acc =>
    let page := server url
    let acc2 := acc ++ page.items
    match page.next with
    | none => some acc2
    | some nextUrl => getReposAux server fuel nextUrl acc2

/-- Repository discovery: follow the pagination chain from the initial
search URL. -/
def getRepos (server : String → Page) (fuel : Nat) : Option (List String) :=
  getReposAux server fuel initialSearchUrl []

/-- Modelled from the spec: the sequence of pages visited by following the
`next` link relation from a URL, stopping exactly when it is absent. Used
to compare the discovery loop against the spec's description of
pagination. -/
def pageChain (server : String → Page) :
    Nat → String → Option (List Page)
  | 0, _ => none
  | fuel + 1, url =>
    let page := server url
    match page.next with
    | none => some [page]
    | some nextUrl => (pageChain server fuel nextUrl).map (page :: ·)

/-! ### Helper lemmas -/

theorem normalizeName_googleCloud (s : Str) :
    normalizeName ("Google Cloud ".data ++ s) = s := by
  have hp : ("Google Cloud ".data).isPrefixOf ("Google Cloud ".data ++ s) = true :=
    List.isPrefixOf_iff_prefix.mpr (List.prefix_append _ _)
  have h13 : ("Google Cloud ".data).length = 13 := rfl
  rw [normalizeName, if_pos hp, ← h13, List.drop_left]

theorem normalizeName_cloud (s : Str) :
    normalizeName ("Cloud ".data ++ s) = s := by
  have hg : ("Google Cloud ".data).isPrefixOf ("Cloud ".data ++ s) = false := rfl
  have hp : ("Cloud ".data).isPrefixOf ("Cloud ".data ++ s) = true :=
    List.isPrefixOf_iff_prefix.mpr (List.prefix_append _ _)
  have h6 : ("Cloud ".data).length = 6 := rfl
  rw [normalizeName, if_neg (by simp [hg]), if_pos hp, ← h6, List.drop_left]

theorem normalizeName_of_no_match (s : Str)
    (hg : ("Google Cloud ".data).isPrefixOf s = false)
    (hc : ("Cloud ".data).isPrefixOf s = false) :
    normalizeName s = s := by
  rw [normalizeName, if_neg (by simp [hg]), if_neg (by simp [hc])]

theorem dropTrailingSlashes_append_slash (s : Str) :
    dropTrailingSlashes (s ++ ['/']) = dropTrailingSlashes s := by
  simp [dropTrailingSlashes, List.reverse_append]

theorem dropTrailingSlashes_replicate (s : Str) (n : Nat) :
    dropTrailingSlashes (s ++ List.replicate n '/') = dropTrailingSlashes s := by
  induction n generalizing s with
  | zero => simp
  | succ k ih =>
    have : s ++ List.replicate (k + 1) '/' = (s ++ ['/']) ++ List.replicate k '/' := by
      simp [List.replicate_succ]
    rw [this, ih, dropTrailingSlashes_append_slash]

theorem dropTrailingSlashes_of_no_slash (s : Str)
    (h : s.getLast? ≠ some '/') : dropTrailingSlashes s = s := by
  rw [dropTrailingSlashes]
  cases hrev : s.reverse with
  | nil =>
    simp only [List.dropWhile_nil, List.reverse_nil]
    exact (List.reverse_eq_nil_iff.mp hrev).symm
  | cons a t =>
    have ha : a ≠ '/' := by
      intro hEq
      apply h
      rw [← List.head?_reverse, hrev, hEq]
      rfl
    rw [List.dropWhile_cons, if_neg (by simp [ha]), ← hrev, List.reverse_reverse]

/-! ### Claim theorems for name normalization and URL derivation -/

/-- C5: name normalization removes exactly one leading occurrence of the
literal prefix "Cloud " or "Google Cloud " (case-sensitive), leaving the
remainder unchanged; "Google Cloud Storage" becomes "Storage",
"Cloud Vision" becomes "Vision", and "BigQuery" is unchanged. -/
theorem c5_normalize_name :
    (∀ s : Str, normalizeName ("Google Cloud ".data ++ s) = s) ∧
    (∀ s : Str, normalizeName ("Cloud ".data ++ s) = s) ∧
    (∀ s : Str, ("Google Cloud ".data).isPrefixOf s = false →
      ("Cloud ".data).isPrefixOf s = false → normalizeName s = s) ∧
    normalizeName "Google Cloud Storage".data = "Storage".data ∧
    normalizeName "Cloud Vision".data = "Vision".data ∧
    normalizeName "BigQuery".data = "BigQuery".data := by
  refine ⟨normalizeName_googleCloud, normalizeName_cloud,
    normalizeName_of_no_match, ?_, ?_, ?_⟩ <;> decide

/-- Witness for C5 at concrete inputs: one removal of "Google Cloud " keeps
a remaining "Cloud X" intact, and a string matching neither prefix is
unchanged. -/
theorem c5_normalize_name_witness :
    normalizeName ("Google Cloud ".data ++ "Cloud Vision".data) = "Cloud Vision".data ∧
    normalizeName "BigQuery Storage".data = "BigQuery Storage".data :=
  ⟨c5_normalize_name.1 "Cloud Vision".data,
   c5_normalize_name.2.2.1 "BigQuery Storage".data (by decide) (by decide)⟩

/-- C6: the candidate support URL is derived by first guaranteeing exactly
one trailing slash (a run of trailing slashes collapses to one, a missing
slash is added) and then rewriting the `docs/...` suffix to
`docs/getting-support`; on the documented example input it yields the
documented output. -/
theorem c6_derive_candidate :
    deriveSupportUrl "https://cloud.google.com/container-registry/docs/container-analysis".data
      = "https://cloud.google.com/container-registry/docs/getting-support".data ∧
    (∀ (s : Str) (n : Nat),
      ensureTrailingSlash (s ++ List.replicate n '/') = ensureTrailingSlash s) ∧
    (∀ s : Str, s.getLast? ≠ some '/' → ensureTrailingSlash s = s ++ ['/']) ∧
    (∀ s : Str, deriveSupportUrl s = replaceFromDocs (ensureTrailingSlash s)) := by
  refine ⟨by decide, ?_, ?_, fun _ => rfl⟩
  · intro s n
    rw [ensureTrailingSlash, ensureTrailingSlash, dropTrailingSlashes_replicate]
  · intro s h
    rw [ensureTrailingSlash, dropTrailingSlashes_of_no_slash s h]

/-- Witness for C6: the trailing-slash rules evaluated at concrete
inputs. -/
theorem c6_derive_candidate_witness :
    ensureTrailingSlash ("https://cloud.google.com/vision/docs".data ++ List.replicate 3 '/')
      = ensureTrailingSlash "https://cloud.google.com/vision/docs".data ∧
    ensureTrailingSlash "https://cloud.google.com/vision/docs".data
      = "https://cloud.google.com/vision/docs".data ++ ['/'] :=
  ⟨c6_derive_candidate.2.1 "https://cloud.google.com/vision/docs".data 3,
   c6_derive_candidate.2.2.1 "https://cloud.google.com/vision/docs".data (by decide)⟩

/-! ### Characterization of the per-record processing -/

theorem processRecord_some (probe : Str → Nat) (m m' : Metadata)
    (h : processRecord probe m = some m') :
    truthyStr m.api_id = true ∧
    m'.api_id = m.api_id ∧
    m'.product_documentation = m.product_documentation ∧
    m'.client_documentation = m.client_documentation ∧
    m'.distribution_name = m.distribution_name ∧
    m'.requires_billing = m.requires_billing ∧
    m'.repo = m.repo ∧
    m'.name_pretty = normalizeName m.name_pretty := by
  cases hapi : truthyStr m.api_id with
  | false => simp [processRecord, hapi] at h
  | true =>
    cases hpd : m.product_documentation with
    | none =>
      simp [processRecord, hapi, hpd] at h
      subst h
      exact ⟨rfl, rfl, rfl, rfl, rfl, rfl, rfl, rfl⟩
    | some pd =>
      cases hemp : pd.isEmpty with
      | true =>
        simp [processRecord, hapi, hpd, hemp] at h
        subst h
        exact ⟨rfl, rfl, rfl, rfl, rfl, rfl, rfl, rfl⟩
      | false =>
        simp [processRecord, hapi, hpd, hemp] at h
        subst h
        exact ⟨rfl, rfl, rfl, rfl, rfl, rfl, rfl, rfl⟩

/-! ### Concrete fixtures -/

def probe200 : Str → Nat := fun _ => 200

def probe404 : Str → Nat := fun _ => 404

def cmp0 : Str → Str → Int := fun _ _ => 0

def visionMeta : Metadata :=
  { api_id := some "vision.googleapis.com".data
    name_pretty := "Cloud Vision".data
    product_documentation := some "https://cloud.google.com/vision/docs/".data
    client_documentation := "https://cloud.google.com/nodejs/docs/reference/vision/latest".data
    distribution_name := "@google-cloud/vision".data
    requires_billing := true
    repo := "googleapis/nodejs-vision".data }

def visionOut : Metadata :=
  { visionMeta with
    name_pretty := "Vision".data
    support_documentation :=
      some "https://cloud.google.com/vision/docs/getting-support".data }

def stackMeta : Metadata :=
  { api_id := some "monitoring.googleapis.com".data
    name_pretty := "Stackdriver Monitoring".data
    product_documentation := some "https://cloud.google.com/monitoring/docs/".data
    client_documentation := "https://cloud.google.com/nodejs/docs/reference/monitoring/latest".data
    distribution_name := "@google-cloud/monitoring".data
    requires_billing := false
    repo := "googleapis/nodejs-monitoring".data }

def noDocsMeta : Metadata :=
  { api_id := some "translate.googleapis.com".data
    name_pretty := "Cloud Translation".data
    product_documentation := none
    client_documentation := "https://cloud.google.com/nodejs/docs/reference/translate/latest".data
    distribution_name := "@google-cloud/translate".data
    requires_billing := true
    repo := "googleapis/nodejs-translate".data }

def noApiMeta : Metadata :=
  { api_id := none
    name_pretty := "Common".data
    product_documentation := none
    client_documentation := "https://example.com".data
    distribution_name := "@google-cloud/common".data
    requires_billing := false
    repo := "googleapis/nodejs-common".data }

/-! ### Claim theorems for the probe and the stackdriver override -/

/-- C1 (counterexample): a record whose normalized display name starts with
"stackdriver" and that has a product-documentation URL does NOT always get
the fixed constant support URL: when the HEAD probe answers 404, the field
is the original product-documentation URL instead. -/
theorem c1_stackdriver_counterexample :
    (processRecord probe404 stackMeta).map Metadata.support_documentation
      = some (some "https://cloud.google.com/monitoring/docs/".data) ∧
    (some "https://cloud.google.com/monitoring/docs/".data : Option Str)
      ≠ some stackdriverSupportUrl := by
  exact ⟨by decide, by decide⟩

/-- C1 (amended): for a record whose normalized display name, lower-cased
and trimmed, starts with "stackdriver" and that has a truthy
product-documentation URL, the candidate is overridden with the fixed
constant URL regardless of the derived value, but the HEAD probe still
applies to that constant: a 404 answer falls back to the original
product-documentation URL, any other answer keeps the constant. -/
theorem c1_stackdriver_amended (probe : Str → Nat) (m : Metadata) (pd : Str)
    (hapi : truthyStr m.api_id = true)
    (hpd : m.product_documentation = some pd)
    (hemp : pd.isEmpty = false)
    (hsd : startsWithStackdriver (normalizeName m.name_pretty) = true) :
    processRecord probe m = some
      { m with
        name_pretty := normalizeName m.name_pretty
        support_documentation := some
          (if probe stackdriverSupportUrl = 404 then pd
           else stackdriverSupportUrl) } := by
  simp [processRecord, hapi, hpd, hemp, hsd]

/-- Witness for the amended C1: with a probe answering 200 everywhere, the
stackdriver record keeps the fixed constant URL. -/
theorem c1_stackdriver_amended_witness :
    processRecord probe200 stackMeta = some
      { stackMeta with
        name_pretty := "Stackdriver Monitoring".data
        support_documentation := some
          (if probe200 stackdriverSupportUrl = 404
           then "https://cloud.google.com/monitoring/docs/".data
           else stackdriverSupportUrl) } :=
  c1_stackdriver_amended probe200 stackMeta
    "https://cloud.google.com/monitoring/docs/".data
    (by decide) rfl (by decide) (by decide)

/-- C3: for a record with a truthy product-documentation URL whose
normalized name does not start with "stackdriver", the HEAD probe decides
the field: a 404 answer makes `support_documentation` the original
`product_documentation` value verbatim, any other answer keeps the derived
candidate; the probe is a total function (`validateStatus: () => true`
makes the request throw on no status), so the record is always produced. -/
theorem c3_probe_fallback (probe : Str → Nat) (m : Metadata) (pd : Str)
    (hapi : truthyStr m.api_id = true)
    (hpd : m.product_documentation = some pd)
    (hemp : pd.isEmpty = false)
    (hsd : startsWithStackdriver (normalizeName m.name_pretty) = false) :
    processRecord probe m = some
      { m with
        name_pretty := normalizeName m.name_pretty
        support_documentation := some
          (if probe (deriveSupportUrl pd) = 404 then pd
           else deriveSupportUrl pd) } := by
  simp [processRecord, hapi, hpd, hemp, hsd]

/-- Witness for C3: with a probe answering 404 everywhere, the vision
record falls back to its original product-documentation URL. -/
theorem c3_probe_fallback_witness :
    processRecord probe404 visionMeta = some
      { visionMeta with
        name_pretty := "Vision".data
        support_documentation := some
          (if probe404 (deriveSupportUrl "https://cloud.google.com/vision/docs/".data) = 404
           then "https://cloud.google.com/vision/docs/".data
           else deriveSupportUrl "https://cloud.google.com/vision/docs/".data) } :=
  c3_probe_fallback probe404 visionMeta
    "https://cloud.google.com/vision/docs/".data
    (by decide) rfl (by decide) (by decide)

/-- C9: processing mutates a produced record only in its `name_pretty`
field (normalized) and its `support_documentation` field; every other field
is carried into the output unchanged. -/
theorem c9_frame_unchanged_fields (probe : Str → Nat) (m m' : Metadata)
    (h : processRecord probe m = some m') :
    m'.api_id = m.api_id ∧
    m'.product_documentation = m.product_documentation ∧
    m'.client_documentation = m.client_documentation ∧
    m'.distribution_name = m.distribution_name ∧
    m'.requires_billing = m.requires_billing ∧
    m'.repo = m.repo ∧
    m'.name_pretty = normalizeName m.name_pretty :=
  (processRecord_some probe m m' h).2

/-- Witness for C9 at the concrete vision record. -/
theorem c9_frame_unchanged_fields_witness :
    visionOut.api_id = visionMeta.api_id ∧
    visionOut.product_documentation = visionMeta.product_documentation ∧
    visionOut.client_documentation = visionMeta.client_documentation ∧
    visionOut.distribution_name = visionMeta.distribution_name ∧
    visionOut.requires_billing = visionMeta.requires_billing ∧
    visionOut.repo = visionMeta.repo ∧
    visionOut.name_pretty = normalizeName visionMeta.name_pretty :=
  c9_frame_unchanged_fields probe200 visionMeta visionOut (by decide)

/-- C10: a record with a truthy product identifier but falsy
product-documentation is still produced (hence included in both output
files), its processing does not depend on the probe at all (no HEAD request
is issued for it), and the produced entry carries no
`support_documentation` field. -/
theorem c10_no_docs_no_probe (probe probe2 : Str → Nat) (m : Metadata)
    (hapi : truthyStr m.api_id = true)
    (hpd : truthyStr m.product_documentation = false)
    (hsup : m.support_documentation = none) :
    processRecord probe m =
      some { m with name_pretty := normalizeName m.name_pretty } ∧
    processRecord probe m = processRecord probe2 m ∧
    ({ m with name_pretty := normalizeName m.name_pretty } : Metadata).support_documentation
      = none := by
  cases hc : m.product_documentation with
  | none =>
    exact ⟨by simp [processRecord, hapi, hc],
           by simp [processRecord, hapi, hc], hsup⟩
  | some pd =>
    have hemp : pd.isEmpty = true := by
      rw [hc] at hpd
      simpa [truthyStr] using hpd
    exact ⟨by simp [processRecord, hapi, hc, hemp],
           by simp [processRecord, hapi, hc, hemp], hsup⟩

/-- Witness for C10 at the concrete record without documentation URL,
with two different probes. -/
theorem c10_no_docs_no_probe_witness :
    processRecord probe404 noDocsMeta =
      some { noDocsMeta with name_pretty := normalizeName noDocsMeta.name_pretty } ∧
    processRecord probe404 noDocsMeta = processRecord probe200 noDocsMeta ∧
    ({ noDocsMeta with name_pretty := normalizeName noDocsMeta.name_pretty } : Metadata).support_documentation
      = none :=
  c10_no_docs_no_probe probe404 probe200 noDocsMeta (by decide) (by decide) rfl

/-! ### Claim theorems for filtering and sorting -/

/-- C7: every record lacking a truthy product identifier is excluded from
the output list, hence appears neither in the serialized JSON array nor as
a rendered README table row (the rows are exactly one per entry of that
same list). -/
theorem c7_excluded_without_api (probe : Str → Nat) (cmp : Str → Str → Int)
    (metas : List Metadata) :
    (∀ m ∈ sortLibraries cmp (generateLibraries probe metas),
      truthyStr m.api_id = true) ∧
    renderRows (sortLibraries cmp (generateLibraries probe metas)) =
      (sortLibraries cmp (generateLibraries probe metas)).map renderRow := by
  refine ⟨?_, rfl⟩
  intro m hm
  rw [sortLibraries, List.mem_mergeSort, generateLibraries,
    List.mem_filterMap] at hm
  obtain ⟨a, _, ha⟩ := hm
  have h := processRecord_some probe a m ha
  rw [h.2.1]
  exact h.1

/-- Witness for C7: in a run over one record without `api_id` and one with,
the produced vision entry is in the output and carries a truthy
identifier. -/
theorem c7_excluded_without_api_witness :
    truthyStr visionOut.api_id = true :=
  (c7_excluded_without_api probe200 cmp0 [noApiMeta, visionMeta]).1 visionOut
    (List.mem_mergeSort.mpr (by decide))

/-- C8: for any comparator whose nonpositive half is transitive and total
(as `localeCompare` over a fixed locale is), the output list is sorted by
normalized display name in non-decreasing comparator order, every adjacent
pair included; the README rows are rendered from that same sorted list in
order. -/
theorem c8_sorted_output (cmp : Str → Str → Int) (libs : List Metadata)
    (htrans : ∀ a b c : Str, cmp a b ≤ 0 → cmp b c ≤ 0 → cmp a c ≤ 0)
    (htotal : ∀ a b : Str, cmp a b ≤ 0 ∨ cmp b a ≤ 0) :
    (sortLibraries cmp libs).Pairwise
      (fun a b => cmp a.name_pretty b.name_pretty ≤ 0) ∧
    renderRows (sortLibraries cmp libs) =
      (sortLibraries cmp libs).map renderRow := by
  refine ⟨?_, rfl⟩
  have key := @List.sorted_mergeSort Metadata
      (fun a b => decide (cmp a.name_pretty b.name_pretty ≤ 0))
      (by
        intro a b c hab hbc
        simp only [decide_eq_true_eq] at hab hbc ⊢
        exact htrans _ _ _ hab hbc)
      (by
        intro a b
        simp only [Bool.or_eq_true, decide_eq_true_eq]
        exact htotal _ _)
      libs
  rw [sortLibraries]
  exact key.imp (by intro a b hab; simpa using hab)

/-- Witness for C8 with a concrete total transitive comparator. -/
theorem c8_sorted_output_witness :
    (sortLibraries cmp0 [visionMeta, stackMeta]).Pairwise
      (fun a b => cmp0 a.name_pretty b.name_pretty ≤ 0) ∧
    renderRows (sortLibraries cmp0 [visionMeta, stackMeta]) =
      (sortLibraries cmp0 [visionMeta, stackMeta]).map renderRow :=
  c8_sorted_output cmp0 [visionMeta, stackMeta]
    (fun _ _ _ _ _ => Int.le_refl 0)
    (fun _ _ => Or.inl (Int.le_refl 0))

/-! ### Claim theorems for metadata collection -/

/-- C4: during metadata collection, a 404 on the metadata-file fetch is
skipped and iteration continues with the next repository unchanged, while
any other HTTP error, any error without a response, or a JSON-parse
failure aborts the entire remaining run with an error value: whatever the
remaining repositories and the accumulated mapping are, the result is
`.error`, so no partial output is produced. -/
theorem c4_metadata_collection (fetch : String → FetchResult)
    (parse : Str → Option Metadata) (repo : String) (rest : List String)
    (acc : List (String × Metadata)) :
    (fetch repo = .httpErr 404 →
      collectRepoMetadataAux fetch parse (repo :: rest) acc =
        collectRepoMetadataAux fetch parse rest acc) ∧
    (∀ status, fetch repo = .httpErr status → status ≠ 404 →
      collectRepoMetadataAux fetch parse (repo :: rest) acc =
        .error (.httpFatal repo status)) ∧
    (∀ content, fetch repo = .ok content → parse content = none →
      collectRepoMetadataAux fetch parse (repo :: rest) acc =
        .error (.parseFatal repo)) ∧
    (fetch repo = .netErr →
      collectRepoMetadataAux fetch parse (repo :: rest) acc =
        .error (.netFatal repo)) := by
  refine ⟨?_, ?_, ?_, ?_⟩
  · intro h
    simp [collectRepoMetadataAux, h]
  · intro status h hne
    simp [collectRepoMetadataAux, h, hne]
  · intro content h hp
    simp [collectRepoMetadataAux, h, hp]
  · intro h
    simp [collectRepoMetadataAux, h]

def fetchAll404 : String → FetchResult := fun _ => .httpErr 404

def parseNone : Str → Option Metadata := fun _ => none

/-- Witness for C4: a 404 on the only repository is skipped and the run
continues (here: finishes) normally. -/
theorem c4_metadata_collection_witness :
    collectRepoMetadataAux fetchAll404 parseNone ["googleapis/nodejs-vision"] [] =
      collectRepoMetadataAux fetchAll404 parseNone [] [] :=
  (c4_metadata_collection fetchAll404 parseNone "googleapis/nodejs-vision" [] []).1
    rfl

/-! ### Claim theorems for repository discovery -/

theorem getReposAux_chain (server : String → Page) :
    ∀ (fuel : Nat) (url : String) (acc : List String) (ps : List Page),
      pageChain server fuel url = some ps →
      getReposAux server fuel url acc =
        some (acc ++ (ps.map Page.items).flatten) := by
  intro fuel
  induction fuel with
  | zero =>
    intro url acc ps h
    simp [pageChain] at h
  | succ k ih =>
    intro url acc ps h
    rw [pageChain] at h
    rw [getReposAux]
    cases hnext : (server url).next with
    | none =>
      rw [hnext] at h
      simp only [Option.some.injEq] at h
      subst h
      simp [hnext]
    | some nextUrl =>
      rw [hnext] at h
      simp only [Option.map_eq_some'] at h
      obtain ⟨qs, hqs, hps⟩ := h
      subst hps
      simp only [hnext]
      rw [ih nextUrl (acc ++ (server url).items) qs hqs]
      simp

/-- C2 (counterexample): discovery performs no deduplication: a response
page whose items repeat an identifier yields a returned sequence with
duplicate owner/name identifiers. -/
def dupServer : String → Page :=
  fun _ => ⟨["googleapis/repo-a", "googleapis/repo-a"], none⟩

theorem c2_duplicates_counterexample :
    getRepos dupServer 1 = some ["googleapis/repo-a", "googleapis/repo-a"] ∧
    ¬ (["googleapis/repo-a", "googleapis/repo-a"] : List String).Nodup := by
  exact ⟨rfl, by decide⟩

/-- C2 (amended): discovery keeps requesting subsequent pages exactly while
a "next" link relation is present and stops when it is absent, returning
the in-order concatenation of all visited pages' items; no deduplication is
performed, so the result is free of duplicates exactly when the pages'
combined items are. -/
theorem c2_pagination_amended (server : String → Page) (fuel : Nat)
    (ps : List Page)
    (h : pageChain server fuel initialSearchUrl = some ps) :
    getRepos server fuel = some ((ps.map Page.items).flatten) ∧
    (((ps.map Page.items).flatten).Nodup →
      ∀ l, getRepos server fuel = some l → l.Nodup) := by
  have hg := getReposAux_chain server fuel initialSearchUrl [] ps h
  rw [List.nil_append] at hg
  rw [getRepos]
  refine ⟨hg, ?_⟩
  intro hnd l hl
  rw [hg] at hl
  injection hl with hl
  exact hl ▸ hnd

def twoPageServer : String → Page :=
  fun u =>
    if u = "page2" then ⟨["googleapis/nodejs-b"], none⟩
    else ⟨["googleapis/nodejs-a"], some "page2"⟩

/-- Witness for the amended C2: a two-page chain is followed to exhaustion
and yields the concatenation of both pages' items. -/
theorem c2_pagination_amended_witness :
    getRepos twoPageServer 2 =
      some ((([(⟨["googleapis/nodejs-a"], some "page2"⟩ : Page),
               (⟨["googleapis/nodejs-b"], none⟩ : Page)].map Page.items).flatten)) :=
  (c2_pagination_amended twoPageServer 2
    [⟨["googleapis/nodejs-a"], some "page2"⟩, ⟨["googleapis/nodejs-b"], none⟩]
    (by decide)).1
